import Mathlib

/-! wksctl: Git URL handling, profile storage paths and the Git process client.

A shallow embedding of `pkg/git/git.go`, `cmd/wksctl/profile/enable/enable.go`
and `cmd/wksctl/profile/disable/disable.go`.

* Go strings are modelled by Lean `String`s.  The only characters the modelled
  code inspects (`/`, `.`, `g`, `i`, `t`, `:`, `[`, `]`, digits) are ASCII, so
  working on Unicode code points agrees with Go's byte-wise functions on every
  valid UTF-8 string.
* `giturls.Parse` (package `github.com/whilp/git-urls`) is a dependency that is
  not part of the repository; every definition that calls it takes the parser as
  a parameter `parse`.
* The Go standard library functions `strings.TrimRight`, `path.Clean`,
  `path.Join`, `(*url.URL).IsAbs` and `(*url.URL).Hostname` are modelled after
  their documented behaviour.
* External effects (`exec.Cmd.Run`, `os.MkdirAll`, `os.RemoveAll`, `os.Stat`,
  `os.Getwd`) are modelled by explicit state passing over an arbitrary system
  state, together with a log of the subprocesses that were started.
-/

namespace Wksctl

/-! ## The parsed URL (`net/url.URL`) -/

/-- The fields of a `*url.URL` that the code reads. `Host` is `host` or
`host:port`. -/
structure URL where
  Scheme : String
  Host : String
  Path : String
  deriving DecidableEq, Repr

/-- The method `(*url.URL).IsAbs`: the URL is absolute when its scheme is non-empty. -/
def URL.IsAbs (u : URL) : Bool :=
  u.Scheme != ""

/-- The helper `validOptionalPort` of `net/url`, applied to the characters that follow
the last colon of the host: a port is valid when it consists of digits only. -/
def validPortDigits (port : List Char) : Bool :=
  port.all fun c => decide ('0' ≤ c) && decide (c ≤ '9')

/-- The helper `splitHostPort` of `net/url`, keeping only the host part: a trailing
`:port` with a numeric (or empty) port is removed, then the square brackets of an
IPv6 literal are removed. -/
def stripHostPort (hostPort : List Char) : List Char :=
  let r := hostPort.reverse
  let portRev := r.takeWhile (fun c => c != ':')
  let host :=
    if portRev.length < r.length && validPortDigits portRev then
      (r.drop (portRev.length + 1)).reverse
    else hostPort
  if host.head? = some '[' && host.getLast? = some ']' then
    (host.drop 1).dropLast
  else host

/-- The method `(*url.URL).Hostname`: `Host` without a valid port number and without
the square brackets of an IPv6 literal. -/
def URL.Hostname (u : URL) : String :=
  String.mk (stripHostPort u.Host.data)

deriving instance DecidableEq for Except

/-- The type of `giturls.Parse`: a string is parsed into a URL or rejected with an
error message. -/
abbrev Parser := String → Except String URL

/-! ## `strings.TrimRight`, `path.Clean`, `path.Join` -/

/-- The function `strings.TrimRight(s, cutset)`: `s` with all trailing characters that
occur in `cutset` removed. -/
def TrimRight (s cutset : String) : String :=
  String.mk (s.data.rdropWhile fun c => decide (c ∈ cutset.data))

/-- Split a path at every `/`. The result is never empty: a path without `/` is its
own single element, and `n` slashes give `n + 1` (possibly empty) elements. -/
def splitSlash : List Char → List (List Char)
  | [] => [[]]
  | c :: cs =>
    if c = '/' then [] :: splitSlash cs
    else
      match splitSlash cs with
      | [] => [[c]]
      | s :: ss => (c :: s) :: ss

/-- One step of the loop of `path.Clean` on the next path element. `out` holds the
elements written so far, last one first. An empty element and `.` are skipped;
`..` removes the last written element when that is a real element (the write index
is beyond `dotdot`), is appended when nothing can be removed and the path is not
rooted, and is dropped at the root; every other element is appended. -/
def cleanStep (rooted : Bool) (out : List (List Char)) (elem : List Char) :
    List (List Char) :=
  if elem = [] then out
  else if elem = ['.'] then out
  else if elem = ['.', '.'] then
    match out with
    | [] => if rooted then [] else [elem]
    | top :: rest =>
      if top = ['.', '.'] then (if rooted then out else elem :: out)
      else rest
  else elem :: out

/-- Write the elements separated by single slashes. -/
def joinSlash : List (List Char) → List Char
  | [] => []
  | [e] => e
  | e :: es => e ++ '/' :: joinSlash es

/-- The function `path.Clean` on a list of characters. -/
def cleanChars (p : List Char) : List Char :=
  if p = [] then ['.']
  else
    let rooted := p.head? = some '/'
    let out := ((splitSlash p).foldl (cleanStep rooted) []).reverse
    let body := joinSlash out
    if rooted then '/' :: body
    else if body = [] then ['.'] else body

/-- The function `path.Clean`: the shortest path equivalent to `p` by purely lexical
processing. -/
def Clean (p : String) : String :=
  String.mk (cleanChars p.data)

/-- The function `path.Join`: the non-empty elements are joined with slashes and the
result is cleaned; when all elements are empty the result is the empty string. -/
def Join (elems : List String) : String :=
  match elems.filter (fun e => e != "") with
  | [] => ""
  | es => Clean (String.mk (joinSlash (es.map String.data)))

/-! ## `pkg/git/git.go`: URL classification and decomposition -/

/-- The function `HostAndRepoPath`: the host name and the name of the repository of a
Git URL, or the wrapped parse error. -/
def HostAndRepoPath (parse : Parser) (repoURL : String) : Except String (String × String) :=
  match parse repoURL with
  | .error err => .error ("unable to parse git URL \x27" ++ repoURL ++ "\x27: " ++ err)
  | .ok url => .ok (url.Hostname, TrimRight url.Path ".git")

/-- The function `IsGitURL`: the argument parses as an absolute URL with a host name. -/
def IsGitURL (parse : Parser) (rawURL : String) : Bool :=
  match parse rawURL with
  | .ok parsedURL => parsedURL.IsAbs && parsedURL.Hostname != ""
  | .error _ => false

/-! ## Subprocesses and the file system -/

/-- A Go `error` value, as far as the code distinguishes errors: `Commit` tests whether
the error of a subprocess is an `*exec.ExitError` (the process ran and exited with a
non-zero status); every other error is only passed on. -/
inductive GoError where
  | exitError (code : Nat)
  | other (msg : String)
  deriving DecidableEq, Repr

/-- One started subprocess: the fields of the `exec.Cmd` built by `Client.exec`.
`env = none` stands for a nil `cmd.Env` (the environment of the parent process). -/
structure Invocation where
  command : String
  dir : String
  args : List String
  env : Option (List String)
  deriving DecidableEq, Repr

/-- The operating system as seen by the code: running a subprocess and the `os`
functions, each acting on a system state `σ`. A result `none` is a nil error; the
errors of the `os` functions are never an `*exec.ExitError` and are represented by
their message. -/
structure System (σ : Type) where
  run : Invocation → σ → Option GoError × σ
  mkdirAll : String → σ → Option String × σ
  removeAll : String → σ → Option String × σ
  stat : String → σ → Option String
  getwd : σ → Except String String

/-- The system state together with the log of all subprocesses started so far, oldest
first. -/
structure World (σ : Type) where
  st : σ
  log : List Invocation
  deriving DecidableEq

/-- The struct `Client`: performs git operations on the directory `dir`. -/
structure Client where
  envVars : List String
  dir : String
  deriving DecidableEq, Repr

/-- The struct `ClientParams`. -/
structure ClientParams where
  PrivateSSHKeyPath : String

/-- The struct `Options`. -/
structure Options where
  URL : String
  Branch : String
  User : String
  Email : String

/-- The struct `CloneOptions`. -/
structure CloneOptions where
  URL : String
  Revision : String

/-- The method `Options.isSSHURL`. -/
def Options.isSSHURL (parse : Parser) (o : Options) : Bool :=
  match parse o.URL with
  | .ok url => url.Scheme == "git" || url.Scheme == "ssh"
  | .error _ => false

/-- The method `Options.ValidateURL`: `.ok ()` is a nil error, `.error m` the error
created by `errors.New(m)`. -/
def Options.ValidateURL (parse : Parser) (o : Options) : Except String Unit :=
  if o.URL == "" then .error "empty Git URL"
  else if !IsGitURL parse o.URL then .error "invalid Git URL"
  else if !o.isSSHURL parse then
    .error "got a HTTP(S) Git URL, but eksctl currently only supports SSH Git URLs"
  else .ok ()

/-- The function `envVars`. -/
def envVars (params : ClientParams) : List String :=
  if params.PrivateSSHKeyPath != "" then
    ["GIT_SSH_COMMAND=ssh -i " ++ params.PrivateSSHKeyPath]
  else []

/-- The function `NewGitClient`: a client on the current working directory, or on the
empty directory name when `os.Getwd` fails. -/
def NewGitClient {σ : Type} (S : System σ) (params : ClientParams) (w : World σ) : Client :=
  let workingDir :=
    match S.getwd w.st with
    | .ok d => d
    | .error _ => ""
  { dir := workingDir, envVars := envVars params }

/-- The method `Client.exec`: start `command` with `args` in `dir` and wait for it. -/
def Client.exec {σ : Type} (S : System σ) (git : Client) (command dir : String)
    (args : List String) (w : World σ) : Option GoError × World σ :=
  let cmd : Invocation :=
    { command := command, dir := dir, args := args,
      env := if git.envVars.length > 0 then some git.envVars else none }
  let r := S.run cmd w.st
  (r.1, { st := r.2, log := w.log ++ [cmd] })

/-- The method `Client.runGitCmd`. -/
def Client.runGitCmd {σ : Type} (S : System σ) (git : Client) (args : List String)
    (w : World σ) : Option GoError × World σ :=
  git.exec S "git" git.dir args w

/-- The method `Client.Add`. -/
def Client.Add {σ : Type} (S : System σ) (git : Client) (files : List String)
    (w : World σ) : Option GoError × World σ :=
  match git.runGitCmd S (["add", "--"] ++ files) w with
  | (some err, w1) => (some err, w1)
  | (none, w1) => (none, w1)

/-- The method `Client.RmRecursive`. -/
def Client.RmRecursive {σ : Type} (S : System σ) (git : Client) (files : List String)
    (w : World σ) : Option GoError × World σ :=
  match git.runGitCmd S (["rm", "-r", "--"] ++ files) w with
  | (some err, w1) => (some err, w1)
  | (none, w1) => (none, w1)

/-- The method `Client.Commit`: makes a commit if there are staged changes. -/
def Client.Commit {σ : Type} (S : System σ) (git : Client) (message user email : String)
    (w : World σ) : Option GoError × World σ :=
  match git.runGitCmd S ["diff", "--cached", "--quiet"] w with
  | (none, w1) => (none, w1)
  | (some (.other m), w1) => (some (.other m), w1)
  | (some (.exitError _), w1) =>
    match (if email != "" then git.runGitCmd S ["config", "user.email", email] w1
           else (none, w1)) with
    | (some err, w2) => (some err, w2)
    | (none, w2) =>
      match (if user != "" then git.runGitCmd S ["config", "user.name", user] w2
             else (none, w2)) with
      | (some err, w3) => (some err, w3)
      | (none, w3) =>
        let args := ["commit", "-m", message]
        let args :=
          if user == "" && email == "" then args
          else args ++ ["--author=" ++ user ++ " <" ++ email ++ ">"]
        match git.runGitCmd S args w3 with
        | (some err, w4) => (some err, w4)
        | (none, w4) => (none, w4)

/-- The method `Client.Push`. -/
def Client.Push {σ : Type} (S : System σ) (git : Client) (w : World σ) :
    Option GoError × World σ :=
  git.runGitCmd S ["push"] w

/-- The method `Client.cloneRepoInPath`. The receiver is a pointer, so the client is
returned together with the error. -/
def Client.cloneRepoInPath {σ : Type} (S : System σ) (git : Client) (clonePath : String)
    (options : CloneOptions) (w : World σ) : Option GoError × Client × World σ :=
  match git.runGitCmd S ["clone", options.URL, clonePath] w with
  | (some err, w1) => (some err, git, w1)
  | (none, w1) =>
    let git1 : Client := { git with dir := clonePath }
    if options.Revision != "" then
      match git1.runGitCmd S ["checkout", options.Revision] w1 with
      | (some err, w2) => (some err, git1, w2)
      | (none, w2) => (none, git1, w2)
    else (none, git1, w1)

/-- The method `Client.CloneRepoInPath`: clones the repository in a specific directory,
which it creates if needed. -/
def Client.CloneRepoInPath {σ : Type} (S : System σ) (git : Client) (clonePath : String)
    (options : CloneOptions) (w : World σ) : Option GoError × Client × World σ :=
  match S.mkdirAll clonePath w.st with
  | (some m, st1) =>
    (some (.other ("unable to create directory for cloning: " ++ m)), git, { w with st := st1 })
  | (none, st1) => git.cloneRepoInPath S clonePath options { w with st := st1 }

/-! ## `cmd/wksctl/profile`: the enable and disable commands -/

/-- The result of a command run: it returned, or it stopped in `log.Fatal` with the
given error. -/
inductive Outcome where
  | done
  | fatal (err : GoError)
  deriving DecidableEq, Repr

/-- The flags of `wksctl profile enable`, as read by `cmd.Flags()`. -/
structure EnableFlags where
  repository : String
  revision : String
  noCommit : Bool

/-- The flags of `wksctl profile disable`. -/
structure DisableFlags where
  repository : String
  noCommit : Bool

/-- The constant `ProfilesStorePrefix` of `enable.go`. -/
def ProfilesStorePrefix : String := "profiles"

/-- The constants that `disable.go` reads from the package `profile/constants`, whose
source is not part of the modelled files. -/
structure Constants where
  AppDevAlias : String
  AppDevRepoURL : String
  ProfilesStorePrefix : String

/-- The values that `enable.go` uses for the same three constants. -/
def enableConstants : Constants :=
  { AppDevAlias := "app-dev"
    AppDevRepoURL := "git@github.com:weaveworks/eks-quickstart-app-dev"
    ProfilesStorePrefix := ProfilesStorePrefix }

/-- The function `profileEnableRun`. -/
def profileEnableRun {σ : Type} (parse : Parser) (S : System σ) (flags : EnableFlags)
    (w : World σ) : Outcome × World σ :=
  let repoUrl := flags.repository
  if repoUrl == "" then
    (.fatal (.other "profile repository must be specified"), w)
  else
    let repoUrl :=
      if repoUrl == "app-dev" then "git@github.com:weaveworks/eks-quickstart-app-dev"
      else repoUrl
    let revision := flags.revision
    if IsGitURL parse repoUrl == false then
      (.fatal (.other "repository is not a Git URL"), w)
    else
      let profileCli := NewGitClient S { PrivateSSHKeyPath := "" } w
      match HostAndRepoPath parse repoUrl with
      | .error err => (.fatal (.other err), w)
      | .ok (hostName, repoName) =>
        let clonePath := Join [ProfilesStorePrefix, hostName, repoName]
        match profileCli.CloneRepoInPath S clonePath
            { URL := repoUrl, Revision := revision } w with
        | (some err, _, w1) => (.fatal err, w1)
        | (none, _, w1) =>
          match S.removeAll (Join [clonePath, ".git"]) w1.st with
          | (some m, st2) => (.fatal (.other m), { w1 with st := st2 })
          | (none, st2) =>
            let w2 : World σ := { w1 with st := st2 }
            if flags.noCommit == false then
              let localCli := NewGitClient S { PrivateSSHKeyPath := "" } w2
              match localCli.Add S [clonePath] w2 with
              | (some err, w3) => (.fatal err, w3)
              | (none, w3) =>
                match localCli.Commit S ("Enable profile: " ++ repoUrl) "" "" w3 with
                | (some err, w4) => (.fatal err, w4)
                | (none, w4) =>
                  match localCli.Push S w4 with
                  | (some err, w5) => (.fatal err, w5)
                  | (none, w5) => (.done, w5)
            else (.done, w2)

/-- The function `profileDisableRun`. -/
def profileDisableRun {σ : Type} (parse : Parser) (K : Constants) (S : System σ)
    (flags : DisableFlags) (w : World σ) : Outcome × World σ :=
  let repoUrl := flags.repository
  if repoUrl == "" then
    (.fatal (.other "profile repository must be specified"), w)
  else
    let repoUrl := if repoUrl == K.AppDevAlias then K.AppDevRepoURL else repoUrl
    if IsGitURL parse repoUrl == false then
      (.fatal (.other "repository is not a Git URL"), w)
    else
      match HostAndRepoPath parse repoUrl with
      | .error err => (.fatal (.other err), w)
      | .ok (hostName, repoName) =>
        let clonePath := Join [K.ProfilesStorePrefix, hostName, repoName]
        match S.stat clonePath w.st with
        | some m => (.fatal (.other m), w)
        | none =>
          match S.removeAll clonePath w.st with
          | (some m, st1) => (.fatal (.other m), { w with st := st1 })
          | (none, st1) =>
            let w1 : World σ := { w with st := st1 }
            if flags.noCommit == false then
              let cli := NewGitClient S { PrivateSSHKeyPath := "" } w1
              match cli.RmRecursive S [clonePath] w1 with
              | (some err, w2) => (.fatal err, w2)
              | (none, w2) =>
                match cli.Commit S ("Disable profile: " ++ repoUrl) "" "" w2 with
                | (some err, w3) => (.fatal err, w3)
                | (none, w3) =>
                  match cli.Push S w3 with
                  | (some err, w4) => (.fatal err, w4)
                  | (none, w4) => (.done, w4)
            else (.done, w1)

/-! ## Concrete inputs for the examples -/

/-- The results of `giturls.Parse` on the inputs used in the examples of this file.
A URL `scheme://host/path` with a known Git transport as scheme is split by
`net/url.Parse` without any normalisation of the path; the SCP-like form
`user@host:path` gives the scheme `ssh` and the path without a leading slash; every
other tabulated string is taken as a local path with the scheme `file` and no host.
Strings outside the table are answered with an error. -/
def parseTable : Parser := fun raw =>
  if raw = "ssh://github.com/org/digit.git" then .ok ⟨"ssh", "github.com", "/org/digit.git"⟩
  else if raw = "ssh://github.com/org/widget" then .ok ⟨"ssh", "github.com", "/org/widget"⟩
  else if raw = "ssh://github.com/org/repo" then .ok ⟨"ssh", "github.com", "/org/repo"⟩
  else if raw = "ssh://github.com/org/repo/" then .ok ⟨"ssh", "github.com", "/org/repo/"⟩
  else if raw = "ssh://github.com:22/org/repo" then .ok ⟨"ssh", "github.com:22", "/org/repo"⟩
  else if raw = "ssh://github.com/../../etc" then .ok ⟨"ssh", "github.com", "/../../etc"⟩
  else if raw = "ssh://github.com/git.git" then .ok ⟨"ssh", "github.com", "/git.git"⟩
  else if raw = "ssh://github.com/" then .ok ⟨"ssh", "github.com", "/"⟩
  else if raw = "https://github.com/org/repo" then .ok ⟨"https", "github.com", "/org/repo"⟩
  else if raw = "git@github.com:org/profile-x" then .ok ⟨"ssh", "github.com", "org/profile-x"⟩
  else if raw = "" then .ok ⟨"file", "", ""⟩
  else if raw = "profiles/local" then .ok ⟨"file", "", "profiles/local"⟩
  else .error "not tabulated"

/-- The state of the system of the examples: the results that the next subprocesses
will give (success once the list is used up), and the directories created and removed
so far, oldest first. -/
structure Sim where
  results : List (Option GoError)
  created : List String
  removed : List String
  deriving DecidableEq, Repr

/-- A system for the examples: subprocesses follow the script in the state, the `os`
functions succeed and are recorded, and the working directory is `/work`. -/
def scriptedSystem : System Sim where
  run := fun _ s => (s.results.head?.join, { s with results := s.results.tail })
  mkdirAll := fun path s => (none, { s with created := s.created ++ [path] })
  removeAll := fun path s => (none, { s with removed := s.removed ++ [path] })
  stat := fun _ _ => none
  getwd := fun _ => .ok "/work"

/-- The start of a run on `scriptedSystem`: the given script, nothing created or
removed yet, and an empty log. -/
def scripted (script : List (Option GoError)) : World Sim :=
  { st := ⟨script, [], []⟩, log := [] }

/-! ## Definitions used in the statements -/

/-- The invocation that `runGitCmd` starts for the given arguments. -/
def gitCmd (git : Client) (args : List String) : Invocation :=
  { command := "git", dir := git.dir, args := args,
    env := if git.envVars.length > 0 then some git.envVars else none }

/-- The arguments of the staged-change check of `Commit`. -/
def diffArgs : List String := ["diff", "--cached", "--quiet"]

/-- The world in which `Commit` reaches its commit step, when the staged-change check
reported staged changes: after the check and after the `git config` commands for a
non-empty email and a non-empty user. -/
def beforeCommitStep {σ : Type} (S : System σ) (git : Client) (user email : String)
    (w : World σ) : World σ :=
  let w1 := (git.runGitCmd S diffArgs w).2
  let w2 := if email = "" then w1 else (git.runGitCmd S ["config", "user.email", email] w1).2
  if user = "" then w2 else (git.runGitCmd S ["config", "user.name", user] w2).2

/-- The condition under which `Commit` reaches its commit step: the staged-change
check ended with an exit status other than zero, and each `git config` command that
was run succeeded. -/
def reachesCommitStep {σ : Type} (S : System σ) (git : Client) (user email : String)
    (w : World σ) : Prop :=
  let r1 := git.runGitCmd S diffArgs w
  let r2 := if email = "" then (none, r1.2)
    else git.runGitCmd S ["config", "user.email", email] r1.2
  let r3 := if user = "" then (none, r2.2)
    else git.runGitCmd S ["config", "user.name", user] r2.2
  (∃ code, r1.1 = some (.exitError code)) ∧ r2.1 = none ∧ r3.1 = none

/-- The repository URL that `profileEnableRun` works on: the flag `--repository`, with
the alias `app-dev` replaced by the URL it stands for. -/
def enableRepoUrl (flags : EnableFlags) : String :=
  if flags.repository == "app-dev" then "git@github.com:weaveworks/eks-quickstart-app-dev"
  else flags.repository

/-- The subprocesses of a successful `CloneRepoInPath`: the clone in the working
directory of the client, and the checkout in the clone when a revision is given. -/
def cloneCmds (git : Client) (clonePath : String) (options : CloneOptions) :
    List Invocation :=
  gitCmd git ["clone", options.URL, clonePath] ::
    (if options.Revision = "" then []
     else [gitCmd { envVars := git.envVars, dir := clonePath } ["checkout", options.Revision]])

/-- A path element that `path.Clean` keeps or interprets: neither empty nor `.`. -/
def isRealElem (e : List Char) : Bool :=
  e != [] && e != ['.']

/-- The elements of a path that are neither empty nor `.`, in order. -/
def realElems (p : List Char) : List (List Char) :=
  (splitSlash p).filter isRealElem

/-- A host name that is a single path element: no slash, and not `.` or `..`
(a host name accepted by `IsGitURL` is non-empty as well). -/
def hostIsElem (host : String) : Prop :=
  '/' ∉ host.data ∧ host ≠ "." ∧ host ≠ ".."

/-- A path without a `..` element. -/
def noDotDot (p : String) : Prop :=
  ['.', '.'] ∉ splitSlash p.data

instance (p : String) : Decidable (noDotDot p) := by
  unfold noDotDot
  infer_instance

/-! ## Sanity checks of the library models -/

/-- The model of `path.Clean` on cases of the table in Go's `path_test.go`. -/
theorem Clean_examples :
    Clean "" = "." ∧ Clean "abc" = "abc" ∧ Clean "a/b/c" = "a/b/c" ∧ Clean "." = "." ∧
    Clean ".." = ".." ∧ Clean "../../abc" = "../../abc" ∧ Clean "/abc" = "/abc" ∧
    Clean "/" = "/" ∧ Clean "abc/def/" = "abc/def" ∧ Clean "../../" = "../.." ∧
    Clean "abc//def//ghi" = "abc/def/ghi" ∧ Clean "//abc//" = "/abc" ∧
    Clean "abc/./def" = "abc/def" ∧ Clean "/./abc/def" = "/abc/def" ∧
    Clean "abc/def/../ghi/../jkl" = "abc/jkl" ∧ Clean "abc/def/../.." = "." ∧
    Clean "/abc/def/../.." = "/" ∧ Clean "abc/def/../../.." = ".." ∧
    Clean "/abc/def/../../.." = "/" ∧
    Clean "abc/def/../../../ghi/jkl/../../../mno" = "../../mno" ∧
    Clean "abc/./../def" = "def" ∧ Clean "abc/../../././../def" = "../../def" := by
  decide

/-- The model of `path.Join` on cases of the table in Go's `path_test.go`. -/
theorem Join_examples :
    Join [] = "" ∧ Join [""] = "" ∧ Join ["a"] = "a" ∧ Join ["a", "b"] = "a/b" ∧
    Join ["a", ""] = "a" ∧ Join ["", "b"] = "b" ∧ Join ["/", "a"] = "/a" ∧
    Join ["/", ""] = "/" ∧ Join ["a/", "b"] = "a/b" ∧ Join ["a/", ""] = "a" ∧
    Join ["", ""] = "" := by
  decide

/-- The model of `(*url.URL).Hostname` on hosts with and without a port. -/
theorem Hostname_examples :
    (URL.mk "ssh" "github.com" "/x").Hostname = "github.com" ∧
    (URL.mk "ssh" "github.com:22" "/x").Hostname = "github.com" ∧
    (URL.mk "ssh" "[::1]:22" "/x").Hostname = "::1" ∧
    (URL.mk "ssh" "[fe80::1]" "/x").Hostname = "fe80::1" ∧
    (URL.mk "file" "" "/x").Hostname = "" := by
  decide

/-! ## Helper lemmas -/

theorem runGitCmd_eq {σ : Type} (S : System σ) (git : Client) (args : List String)
    (w : World σ) :
    git.runGitCmd S args w =
      ((S.run (gitCmd git args) w.st).1,
        { st := (S.run (gitCmd git args) w.st).2, log := w.log ++ [gitCmd git args] }) := by
  rfl

/-- What `rdropWhile` computes: the list splits into the result and a tail of dropped
elements; the result does not end in a dropped kind of element; and no longer prefix
has that property. -/
theorem rdropWhile_spec {α : Type} (p : α → Bool) (l : List α) :
    (∃ tail, l = l.rdropWhile p ++ tail ∧ ∀ c ∈ tail, p c = true) ∧
    (∀ c, (l.rdropWhile p).getLast? = some c → p c = false) ∧
    (∀ q, q <+: l → (∀ c, q.getLast? = some c → p c = false) →
      q.length ≤ (l.rdropWhile p).length) := by
  induction l using List.reverseRecOn with
  | nil =>
    refine ⟨⟨[], by simp⟩, by simp, ?_⟩
    intro q hq _
    simp [List.prefix_nil.mp hq]
  | append_singleton l x ih =>
    obtain ⟨⟨tail, htail, hall⟩, hlast, hmax⟩ := ih
    by_cases hx : p x = true
    · rw [List.rdropWhile_concat_pos p l x hx]
      refine ⟨⟨tail ++ [x], ?_, ?_⟩, hlast, ?_⟩
      · rw [← List.append_assoc, ← htail]
      · intro c hc
        rcases List.mem_append.mp hc with h | h
        · exact hall c h
        · simp at h; subst h; exact hx
      · intro q hq hqlast
        rcases List.prefix_concat_iff.mp hq with h | h
        · have := hqlast x (by simp [h])
          simp [hx] at this
        · exact hmax q h hqlast
    · rw [List.rdropWhile_concat_neg p l x hx]
      refine ⟨⟨[], by simp⟩, ?_, ?_⟩
      · intro c hc
        simp at hc
        subst hc
        simpa using hx
      · intro q hq _
        exact hq.length_le

/-! ## C1: `IsGitURL` -/

/-- C1: `IsGitURL raw` is true if and only if parsing `raw` succeeds, the parsed URL is
absolute (non-empty scheme) and its host name is non-empty. In particular it is false
on every input on which parsing fails, and on every input that parses to a URL without
a scheme or without a host, as the empty string and relative paths do. -/
theorem IsGitURL_iff (parse : Parser) (raw : String) :
    (IsGitURL parse raw = true ↔
      ∃ u, parse raw = .ok u ∧ u.Scheme ≠ "" ∧ u.IsAbs = true ∧ u.Hostname ≠ "") ∧
    ((∃ e, parse raw = .error e) → IsGitURL parse raw = false) ∧
    (∀ u, parse raw = .ok u → u.Scheme = "" → IsGitURL parse raw = false) ∧
    (∀ u, parse raw = .ok u → u.Host = "" → IsGitURL parse raw = false) := by
  refine ⟨?_, ?_, ?_, ?_⟩
  · cases h : parse raw with
    | error e => simp [IsGitURL, h]
    | ok u => simp [IsGitURL, h, URL.IsAbs]
  · rintro ⟨e, h⟩
    simp [IsGitURL, h]
  · intro u h hs
    simp [IsGitURL, h, URL.IsAbs, hs]
  · intro u h hh
    have : u.Hostname = "" := by
      simp [URL.Hostname, hh, stripHostPort, validPortDigits]
    simp [IsGitURL, h, this]

/-- With the parse results of `parseTable`: the empty string, a relative path and an
input that the table answers with an error are no Git URLs; an `ssh` URL and the
SCP-like form are. -/
theorem IsGitURL_examples :
    IsGitURL parseTable "" = false ∧ IsGitURL parseTable "profiles/local" = false ∧
    IsGitURL parseTable "::" = false ∧
    IsGitURL parseTable "ssh://github.com/org/repo" = true ∧
    IsGitURL parseTable "git@github.com:org/profile-x" = true := by
  decide

/-! ## C2 and C10: `HostAndRepoPath` -/

/-- C2: on `ssh://github.com/org/digit.git`, whose path `/org/digit.git` ends in `.git`,
`HostAndRepoPath` returns the repository path `/org/d` and not `/org/digit`; on
`ssh://github.com/org/widget`, whose path does not end in `.git`, it returns
`/org/widge` and not the unchanged path `/org/widget`. -/
theorem HostAndRepoPath_trims_too_much :
    HostAndRepoPath parseTable "ssh://github.com/org/digit.git"
      = .ok ("github.com", "/org/d") ∧
    HostAndRepoPath parseTable "ssh://github.com/org/widget"
      = .ok ("github.com", "/org/widge") := by
  decide

/-- C10: for a URL that parses, `HostAndRepoPath` returns the host name and the longest
prefix of the parsed path that does not end in one of the characters `.`, `g`, `i`,
`t`: the result is a prefix of the path, the removed tail consists of these four
characters only, the result does not end in any of them, no longer prefix of the path
has that property, and the result is empty when the whole path consists of these
characters. -/
theorem HostAndRepoPath_longest_prefix (parse : Parser) (raw : String) (u : URL)
    (h : parse raw = .ok u) :
    ∃ repo : String, HostAndRepoPath parse raw = .ok (u.Hostname, repo) ∧
      (∃ tail, u.Path.data = repo.data ++ tail ∧ ∀ c ∈ tail, c ∈ ['.', 'g', 'i', 't']) ∧
      (∀ c, repo.data.getLast? = some c → c ∉ ['.', 'g', 'i', 't']) ∧
      (∀ q : List Char, q <+: u.Path.data →
        (∀ c, q.getLast? = some c → c ∉ ['.', 'g', 'i', 't']) →
        q.length ≤ repo.data.length) ∧
      ((∀ c ∈ u.Path.data, c ∈ ['.', 'g', 'i', 't']) → repo = "") := by
  obtain ⟨⟨tail, htail, hall⟩, hlast, hmax⟩ :=
    rdropWhile_spec (fun c => decide (c ∈ ['.', 'g', 'i', 't'])) u.Path.data
  refine ⟨TrimRight u.Path ".git", by simp [HostAndRepoPath, h], ⟨tail, htail, ?_⟩, ?_, ?_, ?_⟩
  · intro c hc
    simpa using hall c hc
  · intro c hc
    simpa using hlast c hc
  · intro q hq hqlast
    exact hmax q hq (fun c hc => by simpa using hqlast c hc)
  · intro hp
    have : u.Path.data.rdropWhile (fun c => decide (c ∈ ['.', 'g', 'i', 't'])) = [] :=
      List.rdropWhile_eq_nil_iff.mpr (fun x hx => by simpa using hp x hx)
    show String.mk _ = ""
    exact congrArg String.mk this

/-- An instance of `HostAndRepoPath_longest_prefix`: the path `/org/digit.git`. -/
theorem HostAndRepoPath_longest_prefix_witness :
    ∃ repo : String, HostAndRepoPath parseTable "ssh://github.com/org/digit.git"
        = .ok ("github.com", repo) ∧
      (∃ tail, "/org/digit.git".data = repo.data ++ tail ∧
        ∀ c ∈ tail, c ∈ ['.', 'g', 'i', 't']) ∧
      (∀ c, repo.data.getLast? = some c → c ∉ ['.', 'g', 'i', 't']) ∧
      (∀ q : List Char, q <+: "/org/digit.git".data →
        (∀ c, q.getLast? = some c → c ∉ ['.', 'g', 'i', 't']) →
        q.length ≤ repo.data.length) ∧
      ((∀ c ∈ "/org/digit.git".data, c ∈ ['.', 'g', 'i', 't']) → repo = "") :=
  HostAndRepoPath_longest_prefix parseTable "ssh://github.com/org/digit.git"
    ⟨"ssh", "github.com", "/org/digit.git"⟩ (by decide)

/-! ## C5: `Options.ValidateURL` -/

/-- C5: `ValidateURL` returns no error if and only if the URL is non-empty, `IsGitURL`
accepts it and its parsed scheme is `git` or `ssh`. The checks are made in this order:
an empty URL gives the error `empty Git URL`, a non-empty URL that `IsGitURL` rejects
gives `invalid Git URL`. A URL that parses with the scheme `http` or `https` and a
non-empty host name is always rejected, with the HTTP(S) error when it is non-empty. -/
theorem ValidateURL_ok_iff (parse : Parser) (o : Options) :
    (o.ValidateURL parse = .ok () ↔
      o.URL ≠ "" ∧ IsGitURL parse o.URL = true ∧
        ∃ u, parse o.URL = .ok u ∧ (u.Scheme = "git" ∨ u.Scheme = "ssh")) ∧
    (o.URL = "" → o.ValidateURL parse = .error "empty Git URL") ∧
    (o.URL ≠ "" → IsGitURL parse o.URL = false →
      o.ValidateURL parse = .error "invalid Git URL") ∧
    (∀ u, parse o.URL = .ok u → (u.Scheme = "http" ∨ u.Scheme = "https") →
      u.Hostname ≠ "" →
      (∃ e, o.ValidateURL parse = .error e) ∧
      (o.URL ≠ "" → o.ValidateURL parse =
        .error "got a HTTP(S) Git URL, but eksctl currently only supports SSH Git URLs")) := by
  refine ⟨?_, ?_, ?_, ?_⟩
  · by_cases h0 : o.URL = ""
    · simp [Options.ValidateURL, h0]
    · cases hg : IsGitURL parse o.URL with
      | false => simp [Options.ValidateURL, h0, hg]
      | true =>
        cases hp : parse o.URL with
        | error e => simp [IsGitURL, hp] at hg
        | ok u =>
          by_cases hs : u.Scheme = "git" ∨ u.Scheme = "ssh"
          · rcases hs with hs | hs <;>
              simp [Options.ValidateURL, Options.isSSHURL, h0, hg, hp, hs]
          · have h1 : u.Scheme ≠ "git" := fun h => hs (Or.inl h)
            have h2 : u.Scheme ≠ "ssh" := fun h => hs (Or.inr h)
            simp [Options.ValidateURL, Options.isSSHURL, h0, hg, hp, h1, h2]
  · intro h0
    simp [Options.ValidateURL, h0]
  · intro h0 hg
    simp [Options.ValidateURL, h0, hg]
  · intro u hp hs hh
    have hg : IsGitURL parse o.URL = true := by
      rcases hs with hs | hs <;> simp [IsGitURL, hp, URL.IsAbs, hs, hh]
    have hssh : o.isSSHURL parse = false := by
      rcases hs with hs | hs <;> simp [Options.isSSHURL, hp, hs]
    by_cases h0 : o.URL = ""
    · exact ⟨⟨"empty Git URL", by simp [Options.ValidateURL, h0]⟩, fun h => absurd h0 h⟩
    · have : o.ValidateURL parse =
          .error "got a HTTP(S) Git URL, but eksctl currently only supports SSH Git URLs" := by
        simp [Options.ValidateURL, h0, hg, hssh]
      exact ⟨⟨_, this⟩, fun _ => this⟩

/-- With the parse results of `giturls.Parse`: an `ssh` URL is valid, an `https` URL
with a host, a relative path and the empty URL are rejected, each with its error. -/
theorem ValidateURL_examples :
    Options.ValidateURL parseTable ⟨"ssh://github.com/org/repo", "", "", ""⟩ = .ok () ∧
    Options.ValidateURL parseTable ⟨"https://github.com/org/repo", "", "", ""⟩ =
      .error "got a HTTP(S) Git URL, but eksctl currently only supports SSH Git URLs" ∧
    Options.ValidateURL parseTable ⟨"profiles/local", "", "", ""⟩ = .error "invalid Git URL" ∧
    Options.ValidateURL parseTable ⟨"", "", "", ""⟩ = .error "empty Git URL" := by
  decide

/-! ## C6 and C7: `Client.Commit` -/

/-- C6: when the staged-change check `git diff --cached --quiet` exits successfully,
`Commit` returns success and the check is the only subprocess it starts (no
`git config`, no `git commit`). When the check succeeds again in the resulting state,
a second `Commit` with the same arguments succeeds as well, and the two calls together
have started the check twice and nothing else. -/
theorem Commit_nothing_staged {σ : Type} (S : System σ) (git : Client)
    (message user email : String) (w : World σ)
    (h : (S.run (gitCmd git diffArgs) w.st).1 = none) :
    let w1 : World σ :=
      { st := (S.run (gitCmd git diffArgs) w.st).2, log := w.log ++ [gitCmd git diffArgs] }
    git.Commit S message user email w = (none, w1) ∧
    ((S.run (gitCmd git diffArgs) w1.st).1 = none →
      git.Commit S message user email w1 =
        (none, { st := (S.run (gitCmd git diffArgs) w1.st).2,
                 log := w.log ++ [gitCmd git diffArgs, gitCmd git diffArgs] })) := by
  intro w1
  have key : ∀ v : World σ, (S.run (gitCmd git diffArgs) v.st).1 = none →
      git.Commit S message user email v =
        (none, { st := (S.run (gitCmd git diffArgs) v.st).2,
                 log := v.log ++ [gitCmd git diffArgs] }) := by
    intro v hv
    have hrun : git.runGitCmd S ["diff", "--cached", "--quiet"] v =
        (none, { st := (S.run (gitCmd git diffArgs) v.st).2,
                 log := v.log ++ [gitCmd git diffArgs] }) := by
      rw [runGitCmd_eq]
      exact Prod.ext hv rfl
    simp only [Client.Commit, hrun]
  refine ⟨key w h, fun h1 => ?_⟩
  rw [key w1 h1]
  simp [w1]

/-- An instance of `Commit_nothing_staged`: two commits in a row on a system in which
nothing is staged. -/
theorem Commit_nothing_staged_witness :
    Client.Commit scriptedSystem ⟨[], "/work"⟩ "msg" "" "" (scripted [])
      = (none, { st := ⟨[], [], []⟩, log := [gitCmd ⟨[], "/work"⟩ diffArgs] }) ∧
    (Client.Commit scriptedSystem ⟨[], "/work"⟩ "msg" "" ""
      ((Client.Commit scriptedSystem ⟨[], "/work"⟩ "msg" "" "" (scripted [])).2)).2.log
      = [gitCmd ⟨[], "/work"⟩ diffArgs, gitCmd ⟨[], "/work"⟩ diffArgs] := by
  have h := Commit_nothing_staged scriptedSystem ⟨[], "/work"⟩ "msg" "" "" (scripted [])
    (by decide)
  refine ⟨h.1, ?_⟩
  rw [h.1, h.2 (by decide)]
  rfl

/-- C7: with the user `bob` and an empty email, a `Commit` that reaches its commit
step runs `git commit -m msg "--author=bob <>"`: the author argument is emitted although
the email is empty. -/
theorem Commit_author_with_empty_email :
    reachesCommitStep scriptedSystem ⟨[], "/work"⟩ "bob" "" (scripted [some (.exitError 1)]) ∧
    (Client.Commit scriptedSystem ⟨[], "/work"⟩ "msg" "bob" ""
        (scripted [some (.exitError 1)])).2.log =
      [gitCmd ⟨[], "/work"⟩ diffArgs,
       gitCmd ⟨[], "/work"⟩ ["config", "user.name", "bob"],
       gitCmd ⟨[], "/work"⟩ ["commit", "-m", "msg", "--author=bob <>"]] :=
  ⟨⟨⟨1, rfl⟩, rfl, rfl⟩, by decide⟩

/-- C7: whenever `Commit` reaches its commit step, the subprocess it runs there is
`git commit -m message` when user and email are both empty, and
`git commit -m message "--author=user <email>"` when at least one of them is
non-empty; the result of `Commit` is the result of that subprocess. -/
theorem Commit_commit_step {σ : Type} (S : System σ) (git : Client)
    (message user email : String) (w : World σ)
    (h : reachesCommitStep S git user email w) :
    let args :=
      if user = "" ∧ email = "" then ["commit", "-m", message]
      else ["commit", "-m", message, "--author=" ++ user ++ " <" ++ email ++ ">"]
    let w3 := beforeCommitStep S git user email w
    git.Commit S message user email w =
      ((S.run (gitCmd git args) w3.st).1,
        { st := (S.run (gitCmd git args) w3.st).2, log := w3.log ++ [gitCmd git args] }) := by
  intro args w3
  obtain ⟨⟨code, h1⟩, h2, h3⟩ := h
  have hpair : git.runGitCmd S ["diff", "--cached", "--quiet"] w =
      (some (.exitError code), (git.runGitCmd S diffArgs w).2) := Prod.ext h1 rfl
  have hfin : ∀ (a : List String) (v : World σ),
      (match git.runGitCmd S a v with
        | (some err, w4) => (some err, w4)
        | (none, w4) => ((none : Option GoError), w4)) =
      ((S.run (gitCmd git a) v.st).1,
        { st := (S.run (gitCmd git a) v.st).2, log := v.log ++ [gitCmd git a] }) := by
    intro a v
    rw [runGitCmd_eq]
    cases (S.run (gitCmd git a) v.st).1 <;> rfl
  by_cases he : email = "" <;> by_cases hu : user = ""
  · subst he; subst hu
    simp only [Client.Commit, hpair]
    simpa [args, w3, beforeCommitStep] using hfin _ _
  · subst he
    simp only [if_true, if_neg hu] at h3
    have hp3 : git.runGitCmd S ["config", "user.name", user] (git.runGitCmd S diffArgs w).2 =
        (none, (git.runGitCmd S ["config", "user.name", user]
          (git.runGitCmd S diffArgs w).2).2) := Prod.ext h3 rfl
    simp only [Client.Commit, hpair]
    simp only [bne_self_eq_false, Bool.false_eq_true, if_false]
    simp only [show (user != "") = true from by simpa using hu, if_true]
    rw [hp3]
    simpa [args, w3, beforeCommitStep, hu] using hfin _ _
  · subst hu
    simp only [if_neg he] at h2
    have hp2 : git.runGitCmd S ["config", "user.email", email] (git.runGitCmd S diffArgs w).2 =
        (none, (git.runGitCmd S ["config", "user.email", email]
          (git.runGitCmd S diffArgs w).2).2) := Prod.ext h2 rfl
    simp only [Client.Commit, hpair]
    simp only [show (email != "") = true from by simpa using he, if_true]
    rw [hp2]
    simp only [bne_self_eq_false, Bool.false_eq_true, if_false]
    simpa [args, w3, beforeCommitStep, he] using hfin _ _
  · simp only [if_neg he] at h2
    simp only [if_neg he, if_neg hu] at h3
    have hp2 : git.runGitCmd S ["config", "user.email", email] (git.runGitCmd S diffArgs w).2 =
        (none, (git.runGitCmd S ["config", "user.email", email]
          (git.runGitCmd S diffArgs w).2).2) := Prod.ext h2 rfl
    have hp3 : git.runGitCmd S ["config", "user.name", user]
          (git.runGitCmd S ["config", "user.email", email] (git.runGitCmd S diffArgs w).2).2 =
        (none, (git.runGitCmd S ["config", "user.name", user]
          (git.runGitCmd S ["config", "user.email", email]
            (git.runGitCmd S diffArgs w).2).2).2) := Prod.ext h3 rfl
    simp only [Client.Commit, hpair]
    simp only [show (email != "") = true from by simpa using he, if_true]
    rw [hp2]
    simp only [show (user != "") = true from by simpa using hu, if_true]
    rw [hp3]
    simpa [args, w3, beforeCommitStep, he, hu] using hfin _ _

/-- An instance of `Commit_commit_step`: staged changes, a user and an email. -/
theorem Commit_commit_step_witness :
    reachesCommitStep scriptedSystem ⟨[], "/work"⟩ "bob" "bob@example.org"
      (scripted [some (.exitError 1)]) ∧
    (Client.Commit scriptedSystem ⟨[], "/work"⟩ "msg" "bob" "bob@example.org"
        (scripted [some (.exitError 1)])).2.log =
      [gitCmd ⟨[], "/work"⟩ diffArgs,
       gitCmd ⟨[], "/work"⟩ ["config", "user.email", "bob@example.org"],
       gitCmd ⟨[], "/work"⟩ ["config", "user.name", "bob"],
       gitCmd ⟨[], "/work"⟩
         ["commit", "-m", "msg", "--author=bob <bob@example.org>"]] := by
  have hr : reachesCommitStep scriptedSystem ⟨[], "/work"⟩ "bob" "bob@example.org"
      (scripted [some (.exitError 1)]) := ⟨⟨1, rfl⟩, rfl, rfl⟩
  refine ⟨hr, ?_⟩
  rw [Commit_commit_step scriptedSystem ⟨[], "/work"⟩ "msg" "bob" "bob@example.org"
    (scripted [some (.exitError 1)]) hr]
  decide

/-! ## C8: `Client.CloneRepoInPath` -/

/-- C8: `CloneRepoInPath` first creates the destination directory. When that fails it
starts no subprocess and leaves the client unchanged. Otherwise it runs
`git clone url clonePath` in the original working directory of the client; when the
clone fails the client is unchanged and nothing else is run. When the clone succeeds
the working directory of the client becomes `clonePath`, and `git checkout revision` is
run, in `clonePath`, exactly when the revision is non-empty. The operation returns
success only if every step that ran succeeded, and the working directory is changed if
and only if directory creation and clone both succeeded. -/
theorem CloneRepoInPath_spec {σ : Type} (S : System σ) (git : Client) (clonePath : String)
    (options : CloneOptions) (w : World σ) :
    let r := git.CloneRepoInPath S clonePath options w
    let mk := S.mkdirAll clonePath w.st
    let cloneCmd := gitCmd git ["clone", options.URL, clonePath]
    let cl := S.run cloneCmd mk.2
    let cloned : Client := { envVars := git.envVars, dir := clonePath }
    let checkoutCmd := gitCmd cloned ["checkout", options.Revision]
    let co := S.run checkoutCmd cl.2
    (∀ m, mk.1 = some m →
      r.1 = some (.other ("unable to create directory for cloning: " ++ m)) ∧
      r.2.1 = git ∧ r.2.2.log = w.log ∧ r.2.2.st = mk.2) ∧
    (mk.1 = none → ∀ e, cl.1 = some e →
      r.1 = some e ∧ r.2.1 = git ∧ r.2.2.log = w.log ++ [cloneCmd] ∧ r.2.2.st = cl.2) ∧
    (mk.1 = none → cl.1 = none → options.Revision = "" →
      r.1 = none ∧ r.2.1 = cloned ∧ r.2.2.log = w.log ++ [cloneCmd] ∧ r.2.2.st = cl.2) ∧
    (mk.1 = none → cl.1 = none → options.Revision ≠ "" →
      r.1 = co.1 ∧ r.2.1 = cloned ∧ r.2.2.log = w.log ++ [cloneCmd, checkoutCmd] ∧
      r.2.2.st = co.2) ∧
    (r.1 = none → mk.1 = none ∧ cl.1 = none ∧ (options.Revision ≠ "" → co.1 = none)) ∧
    r.2.1 = (if mk.1 = none ∧ cl.1 = none then cloned else git) := by
  intro r mk cloneCmd cl cloned checkoutCmd co
  have hr : r = git.CloneRepoInPath S clonePath options w := rfl
  have hmk : mk = S.mkdirAll clonePath w.st := rfl
  have hcl : cl = S.run cloneCmd mk.2 := rfl
  have hco : co = S.run checkoutCmd cl.2 := rfl
  clear_value r mk cl co
  rcases mk with ⟨_ | m, st1⟩
  · rcases cl with ⟨_ | e, st2⟩
    · by_cases hrev : options.Revision = ""
      · have : r = (none, cloned, { st := st2, log := w.log ++ [cloneCmd] }) := by
          rw [hr]
          simp only [Client.CloneRepoInPath, ← hmk, Client.cloneRepoInPath, runGitCmd_eq]
          simp [← hcl, cloneCmd, hrev, cloned]
        subst this
        simp [hrev]
      · rcases co with ⟨rc, st3⟩
        have : r = (rc, cloned, { st := st3, log := w.log ++ [cloneCmd, checkoutCmd] }) := by
          rw [hr]
          simp only [Client.CloneRepoInPath, ← hmk, Client.cloneRepoInPath, runGitCmd_eq]
          simp only [← hcl, cloneCmd]
          simp only [show (options.Revision != "") = true from by simpa using hrev, if_true]
          simp only [← hco, checkoutCmd, cloned]
          cases rc <;> simp
        subst this
        simp [hrev]
    · have : r = (some e, git, { st := st2, log := w.log ++ [cloneCmd] }) := by
        rw [hr]
        simp only [Client.CloneRepoInPath, ← hmk, Client.cloneRepoInPath, runGitCmd_eq]
        simp [← hcl, cloneCmd]
      subst this
      simp
  · have : r = (some (.other ("unable to create directory for cloning: " ++ m)), git,
        { st := st1, log := w.log }) := by
      rw [hr]
      simp [Client.CloneRepoInPath, ← hmk]
    subst this
    simp

/-! ## C9: the commit and push of `profileEnableRun` -/

/-- The subprocesses of a `CloneRepoInPath` that returned no error. -/
theorem CloneRepoInPath_ok_log {σ : Type} (S : System σ) (git git1 : Client)
    (clonePath : String) (options : CloneOptions) (w w1 : World σ)
    (h : git.CloneRepoInPath S clonePath options w = (none, git1, w1)) :
    w1.log = w.log ++ cloneCmds git clonePath options := by
  simp only [Client.CloneRepoInPath, Client.cloneRepoInPath, runGitCmd_eq] at h
  rcases hmk : S.mkdirAll clonePath w.st with ⟨_ | m, st1⟩
  · rw [hmk] at h
    simp only at h
    rcases hcl : S.run (gitCmd git ["clone", options.URL, clonePath]) st1 with ⟨_ | e, st2⟩
    · rw [hcl] at h
      by_cases hrev : options.Revision = ""
      · simp [hrev] at h
        simp [cloneCmds, hrev, ← h.2]
      · simp only [show (options.Revision != "") = true from by simpa using hrev, if_true] at h
        rcases hco : S.run (gitCmd { envVars := git.envVars, dir := clonePath }
            ["checkout", options.Revision]) st2 with ⟨_ | e, st3⟩
        · rw [hco] at h
          simp at h
          simp [cloneCmds, hrev, ← h.2]
        · rw [hco] at h
          simp at h
    · rw [hcl] at h
      simp at h
  · rw [hmk] at h
    simp at h

/-- The subprocesses of a `Commit` without user and email: the staged-change check,
followed by `git commit -m message` when the check reported staged changes. -/
theorem Commit_anonymous_log {σ : Type} (S : System σ) (git : Client) (message : String)
    (w : World σ) :
    (git.Commit S message "" "" w).2.log = w.log ++ [gitCmd git diffArgs] ∨
    (git.Commit S message "" "" w).2.log =
      w.log ++ [gitCmd git diffArgs, gitCmd git ["commit", "-m", message]] := by
  simp only [Client.Commit, runGitCmd_eq]
  rcases hd : S.run (gitCmd git ["diff", "--cached", "--quiet"]) w.st with ⟨_ | e, st1⟩
  · left; rfl
  · cases e with
    | other m => left; rfl
    | exitError c =>
      right
      simp only [bne_self_eq_false, Bool.false_eq_true, if_false, beq_self_eq_true,
        Bool.and_self, if_true]
      rcases hc : S.run (gitCmd git ["commit", "-m", message])
        (S.run (gitCmd git ["diff", "--cached", "--quiet"]) w.st).2 with ⟨_ | e, st2⟩ <;>
      simp [hd] at hc <;> simp [hd, hc, diffArgs]

/-- C9: an enable run that gets past the clone and the removal of the `.git` directory.
With `--no-commit` it ends there: the subprocesses of the whole run are the clone and
the checkout. Without it, the run continues with `git add -- clonePath`, then
`Commit` with the message `Enable profile: repoUrl` and empty user and email (the
staged-change check, and `git commit -m message` when there are staged changes), then
`git push`, each in the working directory of the process; it stops with the error of
the first step that fails and is done when all three succeed. -/
theorem profileEnableRun_publish {σ : Type} (parse : Parser) (S : System σ)
    (flags : EnableFlags) (w w1 : World σ) (host repo : String) (cli1 : Client) (st2 : σ)
    (h0 : flags.repository ≠ "")
    (hgit : IsGitURL parse (enableRepoUrl flags) = true)
    (hrepo : HostAndRepoPath parse (enableRepoUrl flags) = .ok (host, repo))
    (hclone : (NewGitClient S { PrivateSSHKeyPath := "" } w).CloneRepoInPath S
        (Join [ProfilesStorePrefix, host, repo])
        { URL := enableRepoUrl flags, Revision := flags.revision } w = (none, cli1, w1))
    (hrm : S.removeAll (Join [Join [ProfilesStorePrefix, host, repo], ".git"]) w1.st
        = (none, st2)) :
    let clonePath := Join [ProfilesStorePrefix, host, repo]
    let run := profileEnableRun parse S flags w
    let w2 : World σ := { st := st2, log := w1.log }
    let localCli := NewGitClient S { PrivateSSHKeyPath := "" } w2
    let addCmd := gitCmd localCli ["add", "--", clonePath]
    let a := S.run addCmd st2
    let w3 : World σ := { st := a.2, log := w1.log ++ [addCmd] }
    let message := "Enable profile: " ++ enableRepoUrl flags
    let c := localCli.Commit S message "" "" w3
    let pushCmd := gitCmd localCli ["push"]
    let p := S.run pushCmd c.2.st
    let w5 : World σ := { st := p.2, log := c.2.log ++ [pushCmd] }
    w1.log = w.log ++ cloneCmds (NewGitClient S { PrivateSSHKeyPath := "" } w) clonePath
      { URL := enableRepoUrl flags, Revision := flags.revision } ∧
    (flags.noCommit = true → run = (.done, w2)) ∧
    (flags.noCommit = false →
      (∀ e, a.1 = some e → run = (.fatal e, w3)) ∧
      (a.1 = none → ∀ e, c.1 = some e → run = (.fatal e, c.2)) ∧
      (a.1 = none → c.1 = none → ∀ e, p.1 = some e → run = (.fatal e, w5)) ∧
      (a.1 = none → c.1 = none → p.1 = none → run = (.done, w5)) ∧
      (c.2.log = w3.log ++ [gitCmd localCli diffArgs] ∨
       c.2.log = w3.log ++ [gitCmd localCli diffArgs,
         gitCmd localCli ["commit", "-m", message]])) := by
  intro clonePath run w2 localCli addCmd a w3 message c pushCmd p w5
  have hlog := CloneRepoInPath_ok_log S _ cli1 _ _ w w1 hclone
  have hurl : (if flags.repository == "app-dev" then
      "git@github.com:weaveworks/eks-quickstart-app-dev" else flags.repository)
      = enableRepoUrl flags := rfl
  have hrun : run = profileEnableRun parse S flags w := rfl
  simp only [profileEnableRun, hurl, hrepo, hclone, hrm] at hrun
  simp only [show (flags.repository == "") = false from by simpa using h0, hgit] at hrun
  simp only [Bool.false_eq_true, if_false, beq_iff_eq, Bool.true_eq_false] at hrun
  refine ⟨hlog, ?_, ?_⟩
  · intro hnc
    rw [hrun]
    simp [hnc, w2]
  · intro hnc
    simp only [hnc, if_true] at hrun
    have hadd : localCli.Add S [clonePath] w2 = (a.1, w3) := by
      simp only [Client.Add, runGitCmd_eq]
      show (match ((S.run addCmd st2).1, w3) with
        | (some err, v) => (some err, v)
        | (none, v) => ((none : Option GoError), v)) = _
      cases (S.run addCmd st2).1 <;> rfl
    have hpush : ∀ v : World σ, localCli.Push S v =
        ((S.run pushCmd v.st).1, { st := (S.run pushCmd v.st).2, log := v.log ++ [pushCmd] }) :=
      fun v => rfl
    change run = (match localCli.Add S [clonePath] w2 with
      | (some err, v3) => (Outcome.fatal err, v3)
      | (none, v3) =>
        match localCli.Commit S message "" "" v3 with
        | (some err, v4) => (Outcome.fatal err, v4)
        | (none, v4) =>
          match localCli.Push S v4 with
          | (some err, v5) => (Outcome.fatal err, v5)
          | (none, v5) => (Outcome.done, v5)) at hrun
    rw [hadd] at hrun
    refine ⟨?_, ?_, ?_, ?_, Commit_anonymous_log S localCli message w3⟩
    · intro e he
      rw [hrun, he]
    · intro ha e hc
      rw [hrun, ha]
      show (match localCli.Commit S message "" "" w3 with
        | (some err, v4) => (Outcome.fatal err, v4)
        | (none, v4) =>
          match localCli.Push S v4 with
          | (some err, v5) => (Outcome.fatal err, v5)
          | (none, v5) => (Outcome.done, v5)) = _
      have : localCli.Commit S message "" "" w3 = (some e, c.2) := Prod.ext hc rfl
      rw [this]
    · intro ha hc e hp
      rw [hrun, ha]
      show (match localCli.Commit S message "" "" w3 with
        | (some err, v4) => (Outcome.fatal err, v4)
        | (none, v4) =>
          match localCli.Push S v4 with
          | (some err, v5) => (Outcome.fatal err, v5)
          | (none, v5) => (Outcome.done, v5)) = _
      have : localCli.Commit S message "" "" w3 = (none, c.2) := Prod.ext hc rfl
      rw [this]
      simp only [hpush]
      show (match ((S.run pushCmd c.2.st).1, w5) with
        | (some err, v5) => (Outcome.fatal err, v5)
        | (none, v5) => (Outcome.done, v5)) = _
      rw [show (S.run pushCmd c.2.st).1 = some e from hp]
    · intro ha hc hp
      rw [hrun, ha]
      show (match localCli.Commit S message "" "" w3 with
        | (some err, v4) => (Outcome.fatal err, v4)
        | (none, v4) =>
          match localCli.Push S v4 with
          | (some err, v5) => (Outcome.fatal err, v5)
          | (none, v5) => (Outcome.done, v5)) = _
      have : localCli.Commit S message "" "" w3 = (none, c.2) := Prod.ext hc rfl
      rw [this]
      simp only [hpush]
      show (match ((S.run pushCmd c.2.st).1, w5) with
        | (some err, v5) => (Outcome.fatal err, v5)
        | (none, v5) => (Outcome.done, v5)) = _
      rw [show (S.run pushCmd c.2.st).1 = none from hp]

/-- An instance of `profileEnableRun_publish`: the run
`enable --repository git@github.com:org/profile-x --revision v1.0 --no-commit` clones
into `profiles/github.com/org/profile-x`, checks out `v1.0` and starts nothing else;
without `--no-commit` and with staged changes the run continues with add, the
staged-change check, commit and push. -/
theorem profileEnableRun_publish_witness :
    profileEnableRun parseTable scriptedSystem ⟨"git@github.com:org/profile-x", "v1.0", true⟩
        (scripted []) =
      (.done, { st := ⟨[], ["profiles/github.com/org/profile-x"],
            ["profiles/github.com/org/profile-x/.git"]⟩, log :=
        [gitCmd ⟨[], "/work"⟩
           ["clone", "git@github.com:org/profile-x", "profiles/github.com/org/profile-x"],
         gitCmd ⟨[], "profiles/github.com/org/profile-x"⟩ ["checkout", "v1.0"]] }) ∧
    (profileEnableRun parseTable scriptedSystem ⟨"git@github.com:org/profile-x", "v1.0", false⟩
        (scripted [none, none, none, some (.exitError 1)])).2.log =
      [gitCmd ⟨[], "/work"⟩
         ["clone", "git@github.com:org/profile-x", "profiles/github.com/org/profile-x"],
       gitCmd ⟨[], "profiles/github.com/org/profile-x"⟩ ["checkout", "v1.0"],
       gitCmd ⟨[], "/work"⟩ ["add", "--", "profiles/github.com/org/profile-x"],
       gitCmd ⟨[], "/work"⟩ diffArgs,
       gitCmd ⟨[], "/work"⟩
         ["commit", "-m", "Enable profile: git@github.com:org/profile-x"],
       gitCmd ⟨[], "/work"⟩ ["push"]] :=
  ⟨(profileEnableRun_publish parseTable scriptedSystem
      ⟨"git@github.com:org/profile-x", "v1.0", true⟩ (scripted [])
      { st := ⟨[], ["profiles/github.com/org/profile-x"], []⟩, log :=
        [gitCmd ⟨[], "/work"⟩
           ["clone", "git@github.com:org/profile-x", "profiles/github.com/org/profile-x"],
         gitCmd ⟨[], "profiles/github.com/org/profile-x"⟩ ["checkout", "v1.0"]] }
      "github.com" "org/profile-x" ⟨[], "profiles/github.com/org/profile-x"⟩
      ⟨[], ["profiles/github.com/org/profile-x"], ["profiles/github.com/org/profile-x/.git"]⟩
      (by decide) (by decide) (by decide) rfl rfl).2.1 rfl,
   by decide⟩

/-- An instance of `CloneRepoInPath_spec`: a clone with a revision on a system on which
every step succeeds, and one on which the clone fails. -/
theorem CloneRepoInPath_examples :
    (Client.CloneRepoInPath scriptedSystem ⟨[], "/work"⟩ "profiles/h/r" ⟨"ssh://h/r", "v1"⟩
        (scripted [])).1 = none ∧
    (Client.CloneRepoInPath scriptedSystem ⟨[], "/work"⟩ "profiles/h/r" ⟨"ssh://h/r", "v1"⟩
        (scripted [])).2.1 = ⟨[], "profiles/h/r"⟩ ∧
    (Client.CloneRepoInPath scriptedSystem ⟨[], "/work"⟩ "profiles/h/r" ⟨"ssh://h/r", "v1"⟩
        (scripted [])).2.2.log =
      [gitCmd ⟨[], "/work"⟩ ["clone", "ssh://h/r", "profiles/h/r"],
       gitCmd ⟨[], "profiles/h/r"⟩ ["checkout", "v1"]] ∧
    (Client.CloneRepoInPath scriptedSystem ⟨[], "/work"⟩ "profiles/h/r" ⟨"ssh://h/r", "v1"⟩
        (scripted [some (.exitError 128)])).1 = some (.exitError 128) ∧
    (Client.CloneRepoInPath scriptedSystem ⟨[], "/work"⟩ "profiles/h/r" ⟨"ssh://h/r", "v1"⟩
        (scripted [some (.exitError 128)])).2.1 = ⟨[], "/work"⟩ ∧
    (Client.CloneRepoInPath scriptedSystem ⟨[], "/work"⟩ "profiles/h/r" ⟨"ssh://h/r", "v1"⟩
        (scripted [some (.exitError 128)])).2.2.log =
      [gitCmd ⟨[], "/work"⟩ ["clone", "ssh://h/r", "profiles/h/r"]] := by
  decide

/-! ## `path.Join` on paths without `..` -/

theorem splitSlash_ne_nil (l : List Char) : splitSlash l ≠ [] := by
  cases l with
  | nil => simp [splitSlash]
  | cons c cs =>
    simp only [splitSlash]
    split
    · simp
    · split <;> simp

theorem splitSlash_append_slash (a b : List Char) :
    splitSlash (a ++ '/' :: b) = splitSlash a ++ splitSlash b := by
  induction a with
  | nil => simp [splitSlash]
  | cons c cs ih =>
    by_cases hc : c = '/'
    · simp [splitSlash, hc, ih]
    · simp only [List.cons_append, splitSlash, if_neg hc]
      rw [show cs.append ('/' :: b) = cs ++ '/' :: b from rfl, ih]
      cases hs : splitSlash cs with
      | nil => exact absurd hs (splitSlash_ne_nil cs)
      | cons x xs => simp

theorem splitSlash_of_no_slash (a : List Char) (h : '/' ∉ a) : splitSlash a = [a] := by
  induction a with
  | nil => simp [splitSlash]
  | cons c cs ih =>
    have hc : c ≠ '/' := fun hc => h (by simp [hc])
    have hcs : '/' ∉ cs := fun hm => h (List.mem_cons_of_mem _ hm)
    simp [splitSlash, hc, ih hcs]

theorem splitSlash_no_slash (l e : List Char) (h : e ∈ splitSlash l) : '/' ∉ e := by
  induction l generalizing e with
  | nil => simp [splitSlash] at h; simp [h]
  | cons c cs ih =>
    by_cases hc : c = '/'
    · simp only [splitSlash, hc, if_true, List.mem_cons] at h
      rcases h with h | h
      · simp [h]
      · exact ih e h
    · simp only [splitSlash, if_neg hc] at h
      cases hs : splitSlash cs with
      | nil => exact absurd hs (splitSlash_ne_nil cs)
      | cons x xs =>
        rw [hs] at h ih
        simp only [List.mem_cons] at h
        rcases h with h | h
        · subst h
          have hx := ih x (by simp)
          intro hm
          rcases List.mem_cons.mp hm with h1 | h1
          · exact hc h1.symm
          · exact hx h1
        · exact ih e (by simp [h])

theorem joinSlash_cons_cons (e f : List Char) (es : List (List Char)) :
    joinSlash (e :: f :: es) = e ++ '/' :: joinSlash (f :: es) := rfl

theorem splitSlash_joinSlash (es : List (List Char)) (hne : es ≠ [])
    (h : ∀ e ∈ es, '/' ∉ e) : splitSlash (joinSlash es) = es := by
  induction es with
  | nil => exact absurd rfl hne
  | cons e rest ih =>
    cases rest with
    | nil => simpa [joinSlash] using splitSlash_of_no_slash e (h e (by simp))
    | cons f fs =>
      rw [joinSlash_cons_cons, splitSlash_append_slash,
        splitSlash_of_no_slash e (h e (by simp)),
        ih (by simp) (fun x hx => h x (List.mem_cons_of_mem _ hx))]
      rfl

theorem foldl_cleanStep_noDotDot (rooted : Bool) (l acc : List (List Char))
    (h : ['.', '.'] ∉ l) :
    l.foldl (cleanStep rooted) acc = (l.filter isRealElem).reverse ++ acc := by
  induction l generalizing acc with
  | nil => simp
  | cons e es ih =>
    have he : e ≠ ['.', '.'] := fun he => h (by simp [he])
    have hes : ['.', '.'] ∉ es := fun hm => h (List.mem_cons_of_mem _ hm)
    rw [List.foldl_cons, ih _ hes]
    by_cases h1 : e = []
    · simp [cleanStep, h1, isRealElem]
    · by_cases h2 : e = ['.']
      · simp [cleanStep, h2, isRealElem]
      · have hreal : isRealElem e = true := by simp [isRealElem, h1, h2]
        simp [cleanStep, h1, h2, he, List.filter_cons, hreal]

/-- Cleaning `profiles/host/repo`, for a host that is a single path element and a
repository path without `..`: the store prefix, the host and the elements of the
repository path that are neither empty nor `.`, separated by single slashes. -/
theorem cleanChars_profiles (h p : List Char) (h0 : h ≠ []) (h1 : '/' ∉ h)
    (h2 : h ≠ ['.']) (h3 : h ≠ ['.', '.']) (hp : ['.', '.'] ∉ splitSlash p) :
    cleanChars (ProfilesStorePrefix.data ++ '/' :: (h ++ '/' :: p)) =
      joinSlash (ProfilesStorePrefix.data :: h :: realElems p) := by
  have hP : '/' ∉ ProfilesStorePrefix.data := by decide
  have hsplit : splitSlash (ProfilesStorePrefix.data ++ '/' :: (h ++ '/' :: p)) =
      ProfilesStorePrefix.data :: h :: splitSlash p := by
    rw [splitSlash_append_slash, splitSlash_append_slash, splitSlash_of_no_slash _ hP,
      splitSlash_of_no_slash _ h1]
    rfl
  have hno : ['.', '.'] ∉ ProfilesStorePrefix.data :: h :: splitSlash p := by
    intro hm
    rcases List.mem_cons.mp hm with e | hm
    · exact absurd e (by decide)
    · rcases List.mem_cons.mp hm with e | hm
      · exact h3 e.symm
      · exact hp hm
  have hfilter : (ProfilesStorePrefix.data :: h :: splitSlash p).filter isRealElem =
      ProfilesStorePrefix.data :: h :: realElems p := by
    have hr : isRealElem h = true := by simp [isRealElem, h0, h2]
    have hPr : isRealElem ProfilesStorePrefix.data = true := by decide
    simp [List.filter_cons, hr, hPr, realElems]
  have hne : ProfilesStorePrefix.data ++ '/' :: (h ++ '/' :: p) ≠ [] := by
    simp [ProfilesStorePrefix]
  have hhead : (ProfilesStorePrefix.data ++ '/' :: (h ++ '/' :: p)).head? ≠ some '/' := by
    simp [ProfilesStorePrefix]
  have hbody : joinSlash (ProfilesStorePrefix.data :: h :: realElems p) ≠ [] := by
    rw [joinSlash_cons_cons]
    simp [ProfilesStorePrefix]
  simp only [cleanChars, if_neg hne, hsplit, foldl_cleanStep_noDotDot _ _ _ hno, hfilter,
    List.append_nil, List.reverse_reverse]
  simp [hhead, hbody]
  decide

/-- Cleaning `profiles/host`, for a host that is a single path element. -/
theorem cleanChars_profiles_host (h : List Char) (h0 : h ≠ []) (h1 : '/' ∉ h)
    (h2 : h ≠ ['.']) (h3 : h ≠ ['.', '.']) :
    cleanChars (ProfilesStorePrefix.data ++ '/' :: h) =
      joinSlash [ProfilesStorePrefix.data, h] := by
  have hP : '/' ∉ ProfilesStorePrefix.data := by decide
  have hsplit : splitSlash (ProfilesStorePrefix.data ++ '/' :: h) =
      [ProfilesStorePrefix.data, h] := by
    rw [splitSlash_append_slash, splitSlash_of_no_slash _ hP, splitSlash_of_no_slash _ h1]
    rfl
  have hno : ['.', '.'] ∉ [ProfilesStorePrefix.data, h] := by
    intro hm
    rcases List.mem_cons.mp hm with e | hm
    · exact absurd e (by decide)
    · rcases List.mem_cons.mp hm with e | hm
      · exact h3 e.symm
      · simp at hm
  have hfilter : [ProfilesStorePrefix.data, h].filter isRealElem =
      [ProfilesStorePrefix.data, h] := by
    have hr : isRealElem h = true := by simp [isRealElem, h0, h2]
    have hPr : isRealElem ProfilesStorePrefix.data = true := by decide
    simp [List.filter_cons, hr, hPr]
  have hne : ProfilesStorePrefix.data ++ '/' :: h ≠ [] := by
    simp [ProfilesStorePrefix]
  have hhead : (ProfilesStorePrefix.data ++ '/' :: h).head? ≠ some '/' := by
    simp [ProfilesStorePrefix]
  have hbody : joinSlash [ProfilesStorePrefix.data, h] ≠ [] := by
    rw [joinSlash_cons_cons]
    simp [ProfilesStorePrefix]
  simp only [cleanChars, if_neg hne, hsplit, foldl_cleanStep_noDotDot _ _ _ hno, hfilter,
    List.append_nil, List.reverse_reverse]
  simp [hhead, hbody]
  decide

/-- The storage path of a profile, for a non-empty host that is a single path element
and a repository path without `..`: the store prefix, the host and the elements of the
repository path that are neither empty nor `.`, separated by single slashes. -/
theorem Join_profiles (host repo : String) (h0 : host ≠ "") (hh : hostIsElem host)
    (hp : noDotDot repo) :
    Join [ProfilesStorePrefix, host, repo] =
      String.mk (joinSlash (ProfilesStorePrefix.data :: host.data :: realElems repo.data)) := by
  obtain ⟨h1, h2, h3⟩ := hh
  have d0 : host.data ≠ [] := fun h => h0 (String.ext h)
  have d2 : host.data ≠ ['.'] := fun h => h2 (String.ext h)
  have d3 : host.data ≠ ['.', '.'] := fun h => h3 (String.ext h)
  have hPne : (ProfilesStorePrefix != "") = true := by decide
  have hhne : (host != "") = true := by simpa using h0
  by_cases hr : repo = ""
  · subst hr
    have : realElems "".data = [] := by decide
    simp only [Join, List.filter_cons, hPne, hhne, if_true, this]
    simp only [show (("" : String) != "") = false from by decide, Bool.false_eq_true, if_false,
      List.filter_nil, List.map_cons, List.map_nil, Clean]
    exact congrArg String.mk (cleanChars_profiles_host host.data d0 h1 d2 d3)
  · have hrne : (repo != "") = true := by simpa using hr
    simp only [Join, List.filter_cons, hPne, hhne, hrne, if_true, List.filter_nil,
      List.map_cons, List.map_nil, Clean]
    exact congrArg String.mk (cleanChars_profiles host.data repo.data d0 h1 d2 d3 hp)

/-- The host name returned by `HostAndRepoPath` for a URL that `IsGitURL` accepts is
non-empty. -/
theorem host_ne_empty (parse : Parser) (raw host repo : String)
    (hgit : IsGitURL parse raw = true)
    (hrepo : HostAndRepoPath parse raw = .ok (host, repo)) : host ≠ "" := by
  cases hp : parse raw with
  | error e => simp [IsGitURL, hp] at hgit
  | ok u =>
    simp only [HostAndRepoPath, hp, Except.ok.injEq, Prod.mk.injEq] at hrepo
    simp only [IsGitURL, hp, Bool.and_eq_true, bne_iff_ne, ne_eq] at hgit
    rw [← hrepo.1]
    exact hgit.2

/-! ## C3: the storage path stays under the host directory -/

/-- C3: `IsGitURL` accepts `ssh://github.com/../../etc`, and the storage path computed
for it is `etc`, outside of `profiles/`: enable clones into `etc` and disable removes
`etc`. It also accepts `ssh://github.com/`, for which the storage path is the whole
host directory `profiles/github.com`. -/
theorem clonePath_escapes_store :
    IsGitURL parseTable "ssh://github.com/../../etc" = true ∧
    HostAndRepoPath parseTable "ssh://github.com/../../etc"
      = .ok ("github.com", "/../../etc") ∧
    Join [ProfilesStorePrefix, "github.com", "/../../etc"] = "etc" ∧
    ¬ ("profiles/".data <+: (Join [ProfilesStorePrefix, "github.com", "/../../etc"]).data) ∧
    profileEnableRun parseTable scriptedSystem ⟨"ssh://github.com/../../etc", "master", true⟩
        (scripted []) =
      (.done, { st := ⟨[], ["etc"], ["etc/.git"]⟩, log :=
        [gitCmd ⟨[], "/work"⟩ ["clone", "ssh://github.com/../../etc", "etc"],
         gitCmd ⟨[], "etc"⟩ ["checkout", "master"]] }) ∧
    profileDisableRun parseTable enableConstants scriptedSystem
        ⟨"ssh://github.com/../../etc", true⟩ (scripted []) =
      (.done, { st := ⟨[], [], ["etc"]⟩, log := [] }) ∧
    IsGitURL parseTable "ssh://github.com/" = true ∧
    HostAndRepoPath parseTable "ssh://github.com/" = .ok ("github.com", "/") ∧
    Join [ProfilesStorePrefix, "github.com", "/"] = "profiles/github.com" := by
  decide

/-- C3: for a URL that `IsGitURL` accepts, whose host name is a single path element (no
slash, not `.` or `..`) and whose repository path, as returned by `HostAndRepoPath`, has
no `..` element and at least one element other than the empty one and `.`, the storage
path is `profiles/host/rel`, where `rel` is non-empty and consists of the elements of
the repository path that are neither empty nor `.`, separated by single slashes; no
element of `rel` is empty, `.` or `..`. -/
theorem clonePath_under_host (parse : Parser) (raw host repo : String)
    (hgit : IsGitURL parse raw = true)
    (hrepo : HostAndRepoPath parse raw = .ok (host, repo))
    (hh : hostIsElem host) (hp : noDotDot repo) (hreal : realElems repo.data ≠ []) :
    ∃ rel : List Char, rel ≠ [] ∧ rel = joinSlash (realElems repo.data) ∧
      Join [ProfilesStorePrefix, host, repo] = "profiles/" ++ host ++ "/" ++ String.mk rel ∧
      splitSlash rel = realElems repo.data ∧
      (∀ e ∈ splitSlash rel, e ≠ [] ∧ e ≠ ['.'] ∧ e ≠ ['.', '.'] ∧ '/' ∉ e) := by
  have h0 := host_ne_empty parse raw host repo hgit hrepo
  have hslash : ∀ e ∈ realElems repo.data, '/' ∉ e := fun e he =>
    splitSlash_no_slash repo.data e (List.mem_of_mem_filter he)
  have hsplit := splitSlash_joinSlash (realElems repo.data) hreal hslash
  have helem : ∀ e ∈ realElems repo.data, e ≠ [] ∧ e ≠ ['.'] ∧ e ≠ ['.', '.'] ∧ '/' ∉ e := by
    intro e he
    have hr : isRealElem e = true := (List.mem_filter.mp he).2
    have hm : e ∈ splitSlash repo.data := List.mem_of_mem_filter he
    simp only [isRealElem, Bool.and_eq_true, bne_iff_ne, ne_eq] at hr
    exact ⟨hr.1, hr.2, fun h => hp (h ▸ hm), hslash e he⟩
  refine ⟨joinSlash (realElems repo.data), ?_, rfl, ?_, hsplit, ?_⟩
  · intro hnil
    rw [hnil] at hsplit
    have : realElems repo.data = [[]] := hsplit.symm
    exact (helem [] (by simp [this])).1 rfl
  · rw [Join_profiles host repo h0 hh hp]
    cases hrs : realElems repo.data with
    | nil => exact absurd hrs hreal
    | cons r rs =>
      apply String.ext
      simp [joinSlash_cons_cons, ProfilesStorePrefix]
  · rw [hsplit]
    exact helem

/-- An instance of `clonePath_under_host`: the SCP-like URL of the profile
`org/profile-x` on `github.com`. -/
theorem clonePath_under_host_witness :
    ∃ rel : List Char, rel ≠ [] ∧ rel = joinSlash (realElems "org/profile-x".data) ∧
      Join [ProfilesStorePrefix, "github.com", "org/profile-x"]
        = "profiles/" ++ "github.com" ++ "/" ++ String.mk rel ∧
      splitSlash rel = realElems "org/profile-x".data ∧
      (∀ e ∈ splitSlash rel, e ≠ [] ∧ e ≠ ['.'] ∧ e ≠ ['.', '.'] ∧ '/' ∉ e) :=
  clonePath_under_host parseTable "git@github.com:org/profile-x" "github.com" "org/profile-x"
    (by decide) (by decide) ⟨by decide, by decide, by decide⟩ (by decide) (by decide)

/-! ## C4: collisions of storage paths -/

/-- C4: the URLs `ssh://github.com/org/repo` and `ssh://github.com/org/repo/` are both
accepted by `IsGitURL`, `HostAndRepoPath` returns the different repository paths
`/org/repo` and `/org/repo/` for them, and both get the storage path
`profiles/github.com/org/repo`. -/
theorem clonePath_collision :
    IsGitURL parseTable "ssh://github.com/org/repo" = true ∧
    IsGitURL parseTable "ssh://github.com/org/repo/" = true ∧
    HostAndRepoPath parseTable "ssh://github.com/org/repo"
      = .ok ("github.com", "/org/repo") ∧
    HostAndRepoPath parseTable "ssh://github.com/org/repo/"
      = .ok ("github.com", "/org/repo/") ∧
    ("/org/repo" : String) ≠ "/org/repo/" ∧
    Join [ProfilesStorePrefix, "github.com", "/org/repo"] = "profiles/github.com/org/repo" ∧
    Join [ProfilesStorePrefix, "github.com", "/org/repo/"] = "profiles/github.com/org/repo" := by
  decide

/-- C4: identical URLs have identical storage paths. For two URLs that `IsGitURL`
accepts, whose host names are single path elements (no slash, not `.` or `..`) and whose
repository paths, as returned by `HostAndRepoPath`, have no `..` element, the storage
paths are equal if and only if the host names are equal and the repository paths have
the same elements other than the empty one and `.`; so the storage paths differ
whenever the hosts differ or the repository paths differ in these elements. -/
theorem clonePath_eq_iff (parse : Parser) (raw1 raw2 host1 repo1 host2 repo2 : String)
    (hgit1 : IsGitURL parse raw1 = true) (hgit2 : IsGitURL parse raw2 = true)
    (hrepo1 : HostAndRepoPath parse raw1 = .ok (host1, repo1))
    (hrepo2 : HostAndRepoPath parse raw2 = .ok (host2, repo2))
    (hh1 : hostIsElem host1) (hh2 : hostIsElem host2)
    (hp1 : noDotDot repo1) (hp2 : noDotDot repo2) :
    (Join [ProfilesStorePrefix, host1, repo1] = Join [ProfilesStorePrefix, host2, repo2] ↔
      host1 = host2 ∧ realElems repo1.data = realElems repo2.data) ∧
    (host1 ≠ host2 ∨ realElems repo1.data ≠ realElems repo2.data →
      Join [ProfilesStorePrefix, host1, repo1] ≠ Join [ProfilesStorePrefix, host2, repo2]) ∧
    (raw1 = raw2 →
      Join [ProfilesStorePrefix, host1, repo1] = Join [ProfilesStorePrefix, host2, repo2]) := by
  have h01 := host_ne_empty parse raw1 host1 repo1 hgit1 hrepo1
  have h02 := host_ne_empty parse raw2 host2 repo2 hgit2 hrepo2
  have hiff : Join [ProfilesStorePrefix, host1, repo1] = Join [ProfilesStorePrefix, host2, repo2] ↔
      host1 = host2 ∧ realElems repo1.data = realElems repo2.data := by
    rw [Join_profiles host1 repo1 h01 hh1 hp1, Join_profiles host2 repo2 h02 hh2 hp2]
    constructor
    · intro h
      have hj : joinSlash (ProfilesStorePrefix.data :: host1.data :: realElems repo1.data) =
          joinSlash (ProfilesStorePrefix.data :: host2.data :: realElems repo2.data) :=
        congrArg String.data h
      have hfree : ∀ (host repo : String), hostIsElem host →
          ∀ e ∈ ProfilesStorePrefix.data :: host.data :: realElems repo.data, '/' ∉ e := by
        intro host repo hh e he
        rcases List.mem_cons.mp he with h | he
        · rw [h]; decide
        · rcases List.mem_cons.mp he with h | he
          · rw [h]; exact hh.1
          · exact splitSlash_no_slash repo.data e (List.mem_of_mem_filter he)
      have hs := congrArg splitSlash hj
      rw [splitSlash_joinSlash _ (by simp) (hfree host1 repo1 hh1),
        splitSlash_joinSlash _ (by simp) (hfree host2 repo2 hh2)] at hs
      simp only [List.cons.injEq, true_and] at hs
      exact ⟨String.ext hs.1, hs.2⟩
    · rintro ⟨hh, hr⟩
      rw [hh, hr]
  refine ⟨hiff, ?_, ?_⟩
  · intro hne heq
    have := hiff.mp heq
    rcases hne with h | h
    · exact h this.1
    · exact h this.2
  · intro hraw
    subst hraw
    rw [hrepo1] at hrepo2
    simp only [Except.ok.injEq, Prod.mk.injEq] at hrepo2
    rw [hrepo2.1, hrepo2.2]

/-- An instance of `clonePath_eq_iff`: two repositories of one organisation have
different storage paths. -/
theorem clonePath_eq_iff_witness :
    Join [ProfilesStorePrefix, "github.com", "/org/repo"] ≠
      Join [ProfilesStorePrefix, "github.com", "/org/widge"] :=
  (clonePath_eq_iff parseTable "ssh://github.com/org/repo" "ssh://github.com/org/widget"
    "github.com" "/org/repo" "github.com" "/org/widge"
    (by decide) (by decide) (by decide) (by decide)
    ⟨by decide, by decide, by decide⟩ ⟨by decide, by decide, by decide⟩
    (by decide) (by decide)).2.1 (Or.inr (by decide))

end Wksctl
